import Mathlib

/-!
Shallow embedding of the initialization / potential-energy core of a
probabilistic-programming library (`numpyro/infer/util.py`) and of the
right-censored distribution (`numpyro/distributions/censored.py`).

Arrays are modelled as rationals (scalar sites) or as functions `Fin n → ℚ`
(batched values); site dictionaries are association lists keyed by strings.
The tracer, the transform registry, the random-split primitive and the
autodiff evaluator are collaborators outside the translated files; they are
modelled from the spec as explicit function parameters or records, each marked
in its doc comment.
-/

namespace NumpyroSpec

/-- Association-list lookup with string keys, modelling Python dict lookup
(`d[k]` / `k in d`). -/
def lookupA {α : Type} (l : List (String × α)) (k : String) : Option α :=
  match l with
  | [] => none
  | kv :: rest => if kv.1 = k then some kv.2 else lookupA rest k

/-- Modelled from the spec: a registered bijective transform (the
`biject_to` registry and `Transform` objects live outside the translated
files). It exposes forward application, inverse application, the
log-absolute-determinant of its Jacobian, and a decidable membership test for
the constrained support. -/
structure Transform where
  forward : ℚ → ℚ
  inv : ℚ → ℚ
  logAbsDetJacobian : ℚ → ℚ → ℚ
  inSupport : ℚ → Bool

/-- Embedding of `transform_fn(transforms, params, invert)`: applies the
transform registered for each key of `params` (its inverse when `invert`),
leaving keys without a registered transform unchanged. -/
def transform_fn (transforms : List (String × Transform))
    (params : List (String × ℚ)) (invert : Bool) : List (String × ℚ) :=
  params.map (fun kv =>
    (kv.1, match lookupA transforms kv.1 with
           | some t => if invert then t.inv kv.2 else t.forward kv.2
           | none => kv.2))

/-- Kind of a trace site (`site['type']`). -/
inductive SiteType where
  | sample
  | param
  | plate
deriving DecidableEq, Repr

/-- One site of a model trace, with the fields `log_density` and
`potential_energy` read: its kind, recorded value, optional first intermediate
(`intermediates[0][0]`, present exactly when the site distribution is a
transformed distribution), the site distribution's log-probability functions
(`fn.log_prob(value)`, `fn.log_prob(value, intermediates)`,
`fn.base_dist.log_prob(base_value)`), the optional `scale`, and the
`is_observed` flag. -/
structure TraceSite where
  stype : SiteType
  value : ℚ
  intermediates : Option ℚ
  lp : ℚ → ℚ
  lpInter : ℚ → ℚ → ℚ
  baseLp : ℚ → ℚ
  scale : Option ℚ
  is_observed : Bool

/-- A model trace: ordered mapping from site name to site. -/
abbrev Trace := List (String × TraceSite)

/-- Modelled from the spec: the tracer (`trace(substitute(model, ...))
.get_trace(*args, **kwargs)` from `numpyro.handlers`, outside the translated
files). A model is an opaque replayable program; `run params skip` is the
trace obtained after substituting `params` (as `base_param_map` when `skip`,
as `param_map` otherwise) and executing the model. -/
structure TraceModel where
  run : List (String × ℚ) → Bool → Trace

/-- Per-site log-probability as computed inside `log_density`: when the site
recorded intermediates, use the base distribution at the first intermediate if
`skip_dist_transforms`, else the site distribution with intermediates passed
through; otherwise the site distribution at the value. (`np.sum` over a
scalar is the identity in this embedding.) -/
def site_log_prob (skip : Bool) (s : TraceSite) : ℚ :=
  match s.intermediates with
  | some inter => if skip then s.baseLp inter else s.lpInter s.value inter
  | none => s.lp s.value

/-- Embedding of `log_density(model, model_args, model_kwargs, params,
skip_dist_transforms)`: traces the substituted model and accumulates, over
`sample` sites only, the (scale-multiplied, when a scale is recorded)
per-site log-probability; returns the total and the trace. -/
def log_density (m : TraceModel) (params : List (String × ℚ)) (skip : Bool) :
    ℚ × Trace :=
  let tr := m.run params skip
  let lj := tr.foldl
    (fun acc kv =>
      if kv.2.stype = SiteType.sample then
        let p := site_log_prob skip kv.2
        let p := match kv.2.scale with
                 | some c => c * p
                 | none => p
        acc + p
      else acc) 0
  (lj, tr)

/-- The loop of `potential_energy` over `inv_transforms.items()`: adds to the
running log-joint each transform's log-absolute-Jacobian-determinant between
the unconstrained value `params[name]` and the constrained value
`params_constrained[name]`, multiplied by `model_trace[name]['scale']` when
the trace records a scale there. -/
def pe_fold (tr : Trace) (params pc : List (String × ℚ)) :
    List (String × Transform) → ℚ → ℚ
  | [], lj => lj
  | nt :: rest, lj =>
    let tld := nt.2.logAbsDetJacobian ((lookupA params nt.1).getD 0)
      ((lookupA pc nt.1).getD 0)
    let tld := match (lookupA tr nt.1).bind TraceSite.scale with
               | some c => c * tld
               | none => tld
    pe_fold tr params pc rest (lj + tld)

/-- Embedding of `potential_energy(model, model_args, model_kwargs,
inv_transforms, params)`: constrain `params` through `inv_transforms`, take
the log joint density with `skip_dist_transforms=True`, add the Jacobian
corrections, and negate. -/
def potential_energy (m : TraceModel) (inv_transforms : List (String × Transform))
    (params : List (String × ℚ)) : ℚ :=
  let pc := transform_fn inv_transforms params false
  let ld := log_density m pc true
  Neg.neg (pe_fold ld.2 params pc inv_transforms ld.1)

/-- The Jacobian-correction term of one entry of the inverse-transform
mapping, as `potential_energy` computes it: the transform's
log-absolute-Jacobian-determinant between the unconstrained and constrained
value, multiplied by the site's scale when the model trace records one. -/
def jacobian_term (tr : Trace) (params pc : List (String × ℚ))
    (nt : String × Transform) : ℚ :=
  let tld := nt.2.logAbsDetJacobian ((lookupA params nt.1).getD 0)
    ((lookupA pc nt.1).getD 0)
  match (lookupA tr nt.1).bind TraceSite.scale with
  | some c => c * tld
  | none => tld

/-- A computed numeric result that is either finite or non-finite
(`inf` / `nan`), as tested by `np.isfinite`. -/
inductive FinVal where
  | fin (q : ℚ)
  | nonfinite
deriving DecidableEq, Repr

/-- Finiteness test (`np.isfinite`). -/
def FinVal.isFinite : FinVal → Bool
  | FinVal.fin _ => true
  | FinVal.nonfinite => false

/-- State threaded through the retry loop of `find_valid_initial_params`:
`(i, rng_key, params, is_valid)`. `i` counts executions of `body_fn`. -/
structure SearchState (P : Type) where
  i : ℕ
  key : ℕ
  params : P
  valid : Bool
deriving Repr

/-- Modelled from the spec: `jax.random.split` (outside the translated
files) — deterministically derives two fresh, distinct sub-keys from a key. -/
def splitKey (k : ℕ) : ℕ × ℕ := (2 * k + 1, 2 * k + 2)

/-- Embedding of `body_fn` of `find_valid_initial_params`, generic in the
parameter type `P` (a pytree in the source). `draw` abstracts the seeded
strategy draw, re-trace and reparameterization-resolution step (a pure
function of the sub-key); `evalPG` abstracts
`value_and_grad(potential_fn)(params)` followed by flattening, giving the
energy and the flattened gradient. The new validity flag is
`isfinite(pe) & all(isfinite(grad))`. -/
def body_fn {P : Type} (draw : ℕ → P) (evalPG : P → FinVal × List FinVal)
    (s : SearchState P) : SearchState P :=
  let ks := splitKey s.key
  let params := draw ks.2
  let pg := evalPG params
  ⟨s.i + 1, ks.1, params, pg.1.isFinite && pg.2.all FinVal.isFinite⟩

/-- Embedding of `cond_fn`: continue while `i < 100` and not valid. -/
def cond_fn {P : Type} (s : SearchState P) : Bool :=
  decide (s.i < 100) && !s.valid

/-- Fuel-bounded iteration of a guarded body. -/
def loopRun {St : Type} (cond : St → Bool) (body : St → St) : ℕ → St → St
  | 0, s => s
  | n + 1, s => if cond s then loopRun cond body n (body s) else s

/-- Modelled from the spec: `while_loop(cond_fn, body_fn, init_state)` from
`numpyro.util` (outside the translated files) — runs `body_fn` while
`cond_fn` holds. `body_fn` increments the counter on every step and `cond_fn`
requires the counter below 100, so 101 units of fuel always reach the exit
condition. -/
def whileLoop {P : Type} (draw : ℕ → P) (evalPG : P → FinVal × List FinVal)
    (s : SearchState P) : SearchState P :=
  loopRun cond_fn (body_fn draw evalPG) 101 s

/-- Embedding of `find_valid_initial_params`, returning the final loop state.
With a caller-supplied prototype the initial state is
`(0, rng_key, prototype_params, False)` and the loop runs. Without one,
`body_fn` is first run once outside the loop (on a dummy parameter value the
body ignores); under eager evaluation (`not_jax_tracer`, always the case in
this embedding) a valid first draw is returned immediately, otherwise the
loop continues from that state. -/
def find_valid_state {P : Type} [Inhabited P] (draw : ℕ → P)
    (evalPG : P → FinVal × List FinVal) (key : ℕ) (proto : Option P) :
    SearchState P :=
  match proto with
  | some p => whileLoop draw evalPG ⟨0, key, p, false⟩
  | none =>
    let s1 := body_fn draw evalPG ⟨0, key, default, false⟩
    if s1.valid then s1 else whileLoop draw evalPG s1

/-- The pair `(init_params, is_valid)` returned by
`find_valid_initial_params`. -/
def find_valid {P : Type} [Inhabited P] (draw : ℕ → P)
    (evalPG : P → FinVal × List FinVal) (key : ℕ) (proto : Option P) :
    P × Bool :=
  let s := find_valid_state draw evalPG key proto
  (s.params, s.valid)

/-- Embedding of the tail of `initialize_model`: run the per-chain search
(`find_valid_initial_params` with `prototype_params` supplied and
`param_as_improper=True`) over the batch of chain keys, and under eager
evaluation raise `RuntimeError` when not all chains are valid, otherwise
return the tuple `(init_params, potential_fn, constrain_fun)`. A single
chain is the singleton batch. `pfn` and `cfn` stand for the partially
applied potential-energy and constrain functions built earlier in
`initialize_model`. -/
def initialize_model_run {P : Type} [Inhabited P] (draw : ℕ → P)
    (evalPG : P → FinVal × List FinVal) (keys : List ℕ) (proto : P)
    (pfn : P → ℚ) (cfn : List (String × ℚ) → List (String × ℚ)) :
    Except String (List P × (P → ℚ) × (List (String × ℚ) → List (String × ℚ))) :=
  let results := keys.map (fun k => find_valid draw evalPG k (some proto))
  if (results.map Prod.snd).all id then
    Except.ok (results.map Prod.fst, pfn, cfn)
  else
    Except.error "Cannot find valid initial parameters. Please check your model again."

/-- Outcome of the sample-count resolution at the head of `predictive`:
either the resolved number of samples together with whether a
`SampleCountMismatch` warning was emitted, or the fatal `ValueError`. -/
inductive PredOutcome where
  | ok (warned : Bool) (num : ℕ)
  | valueError
deriving DecidableEq, Repr

/-- Embedding of the batch-size resolution of `predictive(rng_key, model,
posterior_samples, *args, num_samples=None, ...)`. Posterior samples are an
association list from site name to a batch of draws; the leading batch
dimension of the first leaf is its length. When `posterior_samples` is truthy
(non-empty), the batch size overrides `num_samples`, warning when an explicit
`num_samples` disagrees; afterwards a still-unresolved `num_samples` raises
`ValueError`. -/
def predictive_num (posterior_samples : List (String × List ℚ))
    (num_samples : Option ℕ) : PredOutcome :=
  match posterior_samples with
  | [] =>
    match num_samples with
    | some n => PredOutcome.ok false n
    | none => PredOutcome.valueError
  | kv :: _ =>
    let batch_size := kv.2.length
    let warned := match num_samples with
                  | some n => decide (n ≠ batch_size)
                  | none => false
    PredOutcome.ok warned batch_size

/-- Support constraint of a distribution, as compared by identity in
`RightCensoredDistribution.__init__` (`base_dist.support is
constraints.positive`). -/
inductive SupportKind where
  | positive
  | other
deriving DecidableEq, Repr

/-- The base distribution of a censored observation: its log-probability and
CDF (both elementwise), whether it exposes a `cdf` attribute at all
(`hasattr(base_dist, "cdf")`), and its declared support constraint. -/
structure CensBase where
  log_prob : ℚ → ℚ
  cdf : ℚ → ℚ
  hasCdf : Bool
  support : SupportKind

/-- A constructed `RightCensoredDistribution` over a batch of size `n`:
the base distribution and the boolean event indicator. -/
structure RightCensored (n : ℕ) where
  base : CensBase
  event : Fin n → Bool

/-- Embedding of `RightCensoredDistribution.__init__`: asserts, at
construction time, that the base distribution has a `cdf` attribute and that
its support is the strictly-positive constraint; on success stores the base
distribution and the event indicator (shape promotion is elided in this
scalar-per-position model). -/
def rc_init (d : CensBase) {n : ℕ} (event : Fin n → Bool) :
    Option (RightCensored n) :=
  if d.hasCdf ∧ d.support = SupportKind.positive then
    some ⟨d, event⟩
  else
    none

/-- The helper `logS(x) = log1p(-cdf(x))` of
`RightCensoredDistribution.log_prob`; `log1p` models `jnp.log1p` (an
external numeric primitive) and is passed as a parameter. -/
def rc_logS (log1p : ℚ → ℚ) (d : CensBase) (x : ℚ) : ℚ :=
  log1p (-(d.cdf x))

/-- Embedding of `RightCensoredDistribution.log_prob(value)` over a batch
modelled as functions on positions: start from zeros; when any event is
observed add `where(event, base.log_prob(value), 0)`; when any event is
censored add `where(1 - event, logS(value), 0)`. -/
def rc_log_prob (log1p : ℚ → ℚ) {n : ℕ} (rc : RightCensored n)
    (value : Fin n → ℚ) : Fin n → ℚ :=
  let out0 : Fin n → ℚ := fun _ => 0
  let out1 : Fin n → ℚ :=
    if decide (∃ i, rc.event i = true) then
      fun i => out0 i + (if rc.event i then rc.base.log_prob (value i) else 0)
    else out0
  if decide (∃ i, rc.event i = false) then
    fun i => out1 i + (if !rc.event i then rc_logS log1p rc.base (value i) else 0)
  else out1

/-- A model site as seen by the per-site initialization strategies: its
name, kind, `is_observed` flag; whether its distribution is a
`TransformedDistribution`, the canonical bijection `biject_to(fn.support)`
for the effective distribution (the base distribution when transformed), and
`ComposeTransform(fn.transforms).inv` for inverting a transformed
distribution; and for `param` sites the transform `biject_to(constraint)`
for the site's declared constraint (default `real`), whether that transform
is a `ComposeTransform`, its first constituent `transform.parts[0]` when so,
and the site's declared initial value `args[0]`. -/
structure StratSite where
  name : String
  stype : SiteType
  is_observed : Bool
  fnIsTransformed : Bool
  fnBiject : Transform
  fnTransformsInv : ℚ → ℚ
  constraintTransform : Transform
  constraintIsCompose : Bool
  constraintBase : Transform
  args0 : ℚ

/-- Modelled from the spec: the seeded sampling effects the strategies invoke
through `numpyro.sample` under the handler stack (outside the translated
files). `priorDraw i` is the `i`-th draw of the `_init` site from the
effective prior; `uniformDraw r` is the `_unconstrained_init` draw from
`Uniform(-r, r)`. -/
structure Sampler where
  priorDraw : ℕ → ℚ
  uniformDraw : ℚ → ℚ

/-- Insertion into a sorted list of rationals. -/
def insertSorted (x : ℚ) : List ℚ → List ℚ
  | [] => [x]
  | y :: ys => if x ≤ y then x :: y :: ys else y :: insertSorted x ys

/-- Insertion sort on rationals. -/
def sortQ : List ℚ → List ℚ
  | [] => []
  | x :: xs => insertSorted x (sortQ xs)

/-- The median of a list of draws (`np.median` along the sample axis):
middle element of the sorted list, averaging the two middle elements for an
even count. -/
def npMedian (l : List ℚ) : ℚ :=
  let s := sortQ l
  let n := s.length
  if n = 0 then 0
  else if n % 2 = 1 then s.getD (n / 2) 0
  else (s.getD (n / 2 - 1) 0 + s.getD (n / 2) 0) / 2

/-- The `param`-site branch shared by `_init_to_median` and
`_init_to_value`: take the site's declared value and, when
`biject_to(constraint)` is a `ComposeTransform`, replace it by
`parts[0](transform.inv(value))`; return it unchanged otherwise. -/
def param_base_value (site : StratSite) : ℚ :=
  let value := site.args0
  if site.constraintIsCompose then
    site.constraintBase.forward (site.constraintTransform.inv value)
  else value

/-- Embedding of `_init_to_median(site, num_samples=15, skip_param=False)`:
for a non-observed sample site, the elementwise median of `num_samples`
prior draws from the effective distribution; for a `param` site when params
are not skipped, its composed base value; `None` otherwise. -/
def _init_to_median (smp : Sampler) (site : StratSite) (num_samples : ℕ)
    (skip_param : Bool) : Option ℚ :=
  if site.stype = SiteType.sample ∧ site.is_observed = false then
    some (npMedian ((List.range num_samples).map smp.priorDraw))
  else if site.stype = SiteType.param ∧ skip_param = false then
    some (param_base_value site)
  else none

/-- Embedding of `_init_to_uniform(site, radius=2, skip_param=False)`: for a
non-observed sample site, draw a prior sample (shape only), draw a value
uniformly in `[-radius, radius]` in unconstrained space, and push it through
the canonical bijection of the effective distribution's support; for a
`param` site when params are not skipped, push the uniform draw through the
first constituent of `biject_to(constraint)` (the transform itself when not
composed); `None` otherwise. -/
def _init_to_uniform (smp : Sampler) (site : StratSite) (radius : ℚ)
    (skip_param : Bool) : Option ℚ :=
  if site.stype = SiteType.sample ∧ site.is_observed = false then
    let _value := smp.priorDraw 0
    let u := smp.uniformDraw radius
    some (site.fnBiject.forward u)
  else if site.stype = SiteType.param ∧ skip_param = false then
    let u := smp.uniformDraw radius
    let base := if site.constraintIsCompose then site.constraintBase
                else site.constraintTransform
    some (base.forward u)
  else none

/-- Embedding of `_init_to_value(site, values={}, skip_param=False)`: for a
non-observed sample site whose name is absent from `values`, defer to
`_init_to_uniform` (default radius 2); when present, return the supplied
value, inverted through `ComposeTransform(fn.transforms)` when the site's
distribution is a `TransformedDistribution`; `param` sites as in
`_init_to_median`; `None` otherwise. -/
def _init_to_value (smp : Sampler) (site : StratSite)
    (values : List (String × ℚ)) (skip_param : Bool) : Option ℚ :=
  if site.stype = SiteType.sample ∧ site.is_observed = false then
    match lookupA values site.name with
    | none => _init_to_uniform smp site 2 skip_param
    | some v =>
      some (if site.fnIsTransformed then site.fnTransformsInv v else v)
  else if site.stype = SiteType.param ∧ skip_param = false then
    some (param_base_value site)
  else none

/-- Verification predicate: whenever the state is flagged valid,
re-evaluating the potential energy and its flattened gradient at the state's
parameters yields a finite energy and all-finite gradient. -/
def ValidImplies {P : Type} (evalPG : P → FinVal × List FinVal)
    (s : SearchState P) : Prop :=
  s.valid = true →
    (evalPG s.params).1.isFinite = true ∧
    (evalPG s.params).2.all FinVal.isFinite = true

/-- Example transform (identity bijection with full support) used by
concrete instantiations. -/
def exTransform : Transform := ⟨id, id, fun _ _ => 0, fun _ => true⟩

/-- Example strategy draw used by concrete instantiations. -/
def exDraw (k : ℕ) : ℚ := (k : ℚ)

/-- Example potential-energy-and-gradient evaluator (always finite) used by
concrete instantiations. -/
def exEvalPG (_ : ℚ) : FinVal × List FinVal := (FinVal.fin 0, [])

/-- Example sampler used by concrete instantiations. -/
def exSampler : Sampler := ⟨fun i => (i : ℚ), fun r => r⟩

/-- Example non-observed sample site (directly parameterized) used by
concrete instantiations. -/
def exSiteSample : StratSite :=
  ⟨"x", SiteType.sample, false, false, exTransform, id, exTransform, false,
    exTransform, 0⟩

theorem lookupA_mem {α : Type} {l : List (String × α)} {k : String} {b : α}
    (h : lookupA l k = some b) : (k, b) ∈ l := by
  induction l with
  | nil => simp [lookupA] at h
  | cons kv rest ih =>
    unfold lookupA at h
    by_cases hk : kv.1 = k
    · simp only [hk, if_pos rfl] at h
      cases kv with
      | mk k1 b1 =>
        simp only at hk
        injection h with h
        subst hk; subst h
        exact List.mem_cons_self _ _
    · simp only [if_neg hk] at h
      exact List.mem_cons_of_mem _ (ih h)

theorem pe_fold_eq_sum (tr : Trace) (params pc : List (String × ℚ)) :
    ∀ (T : List (String × Transform)) (lj : ℚ),
      pe_fold tr params pc T lj =
        lj + (T.map (jacobian_term tr params pc)).sum := by
  intro T
  induction T with
  | nil => intro lj; simp [pe_fold]
  | cons nt rest ih =>
    intro lj
    simp only [pe_fold, jacobian_term, List.map_cons, List.sum_cons, ih]
    ring

/-- C2: `potential_energy` returns the negation of the sum of (a) the log
joint density with `skip_dist_transforms=True` at the constrained values
obtained by applying the inverse-transform mapping to `params`, and (b) for
each entry of the mapping, its log-absolute-Jacobian-determinant between the
unconstrained and the constrained value, multiplied by the site's scale when
the model trace records one. -/
theorem potential_energy_decomposition (m : TraceModel)
    (inv_transforms : List (String × Transform)) (params : List (String × ℚ)) :
    potential_energy m inv_transforms params =
      -((log_density m (transform_fn inv_transforms params false) true).1
        + (inv_transforms.map
            (jacobian_term
              (log_density m (transform_fn inv_transforms params false) true).2
              params (transform_fn inv_transforms params false))).sum) := by
  simp only [potential_energy, pe_fold_eq_sum]

/-- C4: the log-probability of a right-censored distribution is, at every
position of the batch, exactly one of the two contributions: the base
distribution's log-probability at the value where the event is observed, and
`log1p(-cdf(value))` where it is censored — position-wise, for any mixture
within a batch. -/
theorem rc_log_prob_pointwise (log1p : ℚ → ℚ) {n : ℕ} (rc : RightCensored n)
    (value : Fin n → ℚ) (i : Fin n) :
    rc_log_prob log1p rc value i =
      if rc.event i then rc.base.log_prob (value i)
      else log1p (-(rc.base.cdf (value i))) := by
  unfold rc_log_prob rc_logS
  by_cases h : rc.event i = true
  · have he : ∃ j, rc.event j = true := ⟨i, h⟩
    by_cases hf : ∃ j, rc.event j = false
    · simp [he, hf, h]
    · simp [he, hf, h]
  · have hf : ∃ j, rc.event j = false := ⟨i, by simpa using h⟩
    by_cases he : ∃ j, rc.event j = true
    · simp [he, hf, h]
    · simp [he, hf, h]

/-- C5: constructing a `RightCensoredDistribution` succeeds exactly when the
base distribution has a `cdf` attribute and its support is the
strictly-positive constraint; and `log_prob` never re-checks these
conditions — it depends only on the base distribution's `log_prob` and `cdf`
functions, so evaluation never fails on their account. -/
theorem rc_init_checks_at_construction (d d' : CensBase) {n : ℕ}
    (event : Fin n → Bool) (log1p : ℚ → ℚ) (value : Fin n → ℚ)
    (hlp : d.log_prob = d'.log_prob) (hcdf : d.cdf = d'.cdf) :
    ((rc_init d event).isSome ↔
      (d.hasCdf = true ∧ d.support = SupportKind.positive))
    ∧ rc_log_prob log1p ⟨d, event⟩ value = rc_log_prob log1p ⟨d', event⟩ value := by
  constructor
  · unfold rc_init
    split_ifs with h
    · simpa using h
    · simpa using h
  · unfold rc_log_prob rc_logS
    simp [hlp, hcdf]

theorem rc_init_checks_at_construction_witness :
    ((rc_init ⟨fun v => v, fun v => v, true, SupportKind.positive⟩
        (fun _ : Fin 1 => true)).isSome ↔
      ((⟨fun v => v, fun v => v, true, SupportKind.positive⟩ : CensBase).hasCdf = true ∧
       (⟨fun v => v, fun v => v, true, SupportKind.positive⟩ : CensBase).support =
         SupportKind.positive))
    ∧ rc_log_prob (fun q => q)
        ⟨⟨fun v => v, fun v => v, true, SupportKind.positive⟩, fun _ : Fin 1 => true⟩
        (fun _ => 0) =
      rc_log_prob (fun q => q)
        ⟨⟨fun v => v, fun v => v, false, SupportKind.other⟩, fun _ : Fin 1 => true⟩
        (fun _ => 0) :=
  rc_init_checks_at_construction _ _ _ _ _ rfl rfl

/-- C6: `predictive` raises `ValueError` exactly when the posterior-sample
mapping is empty and no explicit `num_samples` was supplied; with non-empty
samples and a disagreeing explicit `num_samples`, it proceeds with the
leading batch dimension and emits a warning instead of failing. -/
theorem predictive_batch_size_errors (ps : List (String × List ℚ))
    (ns : Option ℕ) :
    (predictive_num ps ns = PredOutcome.valueError ↔ (ps = [] ∧ ns = none))
    ∧ (∀ kv rest n, ps = kv :: rest → ns = some n → n ≠ kv.2.length →
        predictive_num ps ns = PredOutcome.ok true kv.2.length) := by
  constructor
  · cases ps with
    | nil =>
      cases ns with
      | none => simp [predictive_num]
      | some n => simp [predictive_num]
    | cons kv rest =>
      cases ns with
      | none => simp [predictive_num]
      | some n => simp [predictive_num]
  · intro kv rest n hps hns hne
    subst hps; subst hns
    simp [predictive_num, hne]

theorem predictive_batch_size_errors_witness :
    (predictive_num [("a", [1, 2])] (some 3) = PredOutcome.valueError ↔
      (([("a", [1, 2])] : List (String × List ℚ)) = [] ∧ (some 3 : Option ℕ) = none))
    ∧ predictive_num [("a", [1, 2])] (some 3) =
        PredOutcome.ok true ("a", ([1, 2] : List ℚ)).2.length :=
  ⟨(predictive_batch_size_errors _ _).1,
   (predictive_batch_size_errors _ _).2 ("a", [1, 2]) [] 3 rfl rfl (by decide)⟩

/-- C9: for a non-observed sample site, `_init_to_value` returns the
user-supplied value when the site name is in the value map (inverted through
the composed transform when the site's distribution is a transformed
distribution) and otherwise returns exactly the result of the
uniform-in-box strategy `_init_to_uniform` (at its default radius 2). -/
theorem init_to_value_fixed_or_uniform (smp : Sampler) (site : StratSite)
    (values : List (String × ℚ)) (skip_param : Bool)
    (hs : site.stype = SiteType.sample) (ho : site.is_observed = false) :
    (∀ v, lookupA values site.name = some v →
      _init_to_value smp site values skip_param =
        some (if site.fnIsTransformed then site.fnTransformsInv v else v))
    ∧ (lookupA values site.name = none →
      _init_to_value smp site values skip_param =
        _init_to_uniform smp site 2 skip_param) := by
  constructor
  · intro v hv
    simp [_init_to_value, hs, ho, hv]
  · intro hv
    simp [_init_to_value, hs, ho, hv]

theorem init_to_value_fixed_or_uniform_witness :
    _init_to_value exSampler exSiteSample [("x", 5)] false =
      some (if exSiteSample.fnIsTransformed then exSiteSample.fnTransformsInv 5
            else 5) :=
  (init_to_value_fixed_or_uniform exSampler exSiteSample [("x", 5)] false
    rfl rfl).1 5 rfl

/-- C10: each initialization strategy produces a value exactly for
non-observed sample sites and, when `skip_param` is false, for `param`
sites; observed sample sites, `plate` sites and skipped `param` sites get
`None`. -/
theorem init_strategies_site_gating (smp : Sampler) (site : StratSite)
    (num_samples : ℕ) (radius : ℚ) (values : List (String × ℚ))
    (skip_param : Bool) :
    ((_init_to_median smp site num_samples skip_param).isSome ↔
      ((site.stype = SiteType.sample ∧ site.is_observed = false) ∨
       (site.stype = SiteType.param ∧ skip_param = false)))
    ∧ ((_init_to_uniform smp site radius skip_param).isSome ↔
      ((site.stype = SiteType.sample ∧ site.is_observed = false) ∨
       (site.stype = SiteType.param ∧ skip_param = false)))
    ∧ ((_init_to_value smp site values skip_param).isSome ↔
      ((site.stype = SiteType.sample ∧ site.is_observed = false) ∨
       (site.stype = SiteType.param ∧ skip_param = false))) := by
  by_cases h1 : site.stype = SiteType.sample ∧ site.is_observed = false
  · refine ⟨?_, ?_, ?_⟩
    · simp [_init_to_median, h1]
    · simp [_init_to_uniform, h1]
    · cases hv : lookupA values site.name with
      | none => simp [_init_to_value, _init_to_uniform, h1, hv]
      | some v => simp [_init_to_value, h1, hv]
  · by_cases h2 : site.stype = SiteType.param ∧ skip_param = false
    · refine ⟨?_, ?_, ?_⟩
      · simp [_init_to_median, h1, h2]
      · simp [_init_to_uniform, h1, h2]
      · simp [_init_to_value, h1, h2]
    · refine ⟨?_, ?_, ?_⟩
      · simp [_init_to_median, h1, h2]
      · simp [_init_to_uniform, h1, h2]
      · simp [_init_to_value, h1, h2]

theorem loopRun_i_le {P : Type} (draw : ℕ → P)
    (evalPG : P → FinVal × List FinVal) :
    ∀ (fuel : ℕ) (s : SearchState P),
      (loopRun cond_fn (body_fn draw evalPG) fuel s).i ≤ max s.i 100 := by
  intro fuel
  induction fuel with
  | zero => intro s; simp [loopRun]
  | succ m ih =>
    intro s
    unfold loopRun
    by_cases h : cond_fn s = true
    · rw [if_pos h]
      have hi : s.i < 100 := by
        unfold cond_fn at h
        simp only [Bool.and_eq_true, decide_eq_true_eq] at h
        exact h.1
      have hb : (body_fn draw evalPG s).i = s.i + 1 := rfl
      calc (loopRun cond_fn (body_fn draw evalPG) m (body_fn draw evalPG s)).i
          ≤ max (body_fn draw evalPG s).i 100 := ih _
        _ ≤ max s.i 100 := by
            rw [hb]
            exact max_le (le_max_of_le_right hi) (le_max_right _ _)
    · rw [if_neg h]
      exact le_max_left _ _

theorem loopRun_i_mono {P : Type} (draw : ℕ → P)
    (evalPG : P → FinVal × List FinVal) :
    ∀ (fuel : ℕ) (s : SearchState P),
      s.i ≤ (loopRun cond_fn (body_fn draw evalPG) fuel s).i := by
  intro fuel
  induction fuel with
  | zero => intro s; simp [loopRun]
  | succ m ih =>
    intro s
    unfold loopRun
    by_cases h : cond_fn s = true
    · rw [if_pos h]
      have hb : (body_fn draw evalPG s).i = s.i + 1 := rfl
      have := ih (body_fn draw evalPG s)
      omega
    · rw [if_neg h]

theorem body_fn_valid_implies {P : Type} (draw : ℕ → P)
    (evalPG : P → FinVal × List FinVal) (s : SearchState P) :
    ValidImplies evalPG (body_fn draw evalPG s) := by
  intro h
  unfold body_fn at h ⊢
  simp only at h ⊢
  exact Bool.and_eq_true_iff.mp h |>.imp id (fun hh => hh)

theorem loopRun_valid_implies {P : Type} (draw : ℕ → P)
    (evalPG : P → FinVal × List FinVal) :
    ∀ (fuel : ℕ) (s : SearchState P), ValidImplies evalPG s →
      ValidImplies evalPG (loopRun cond_fn (body_fn draw evalPG) fuel s) := by
  intro fuel
  induction fuel with
  | zero => intro s hs; simpa [loopRun] using hs
  | succ m ih =>
    intro s hs
    unfold loopRun
    by_cases h : cond_fn s = true
    · rw [if_pos h]
      exact ih _ (body_fn_valid_implies draw evalPG s)
    · rw [if_neg h]
      exact hs

theorem loopRun_cond_false {P : Type} (draw : ℕ → P)
    (evalPG : P → FinVal × List FinVal) :
    ∀ (fuel : ℕ) (s : SearchState P), 101 ≤ fuel + s.i →
      cond_fn (loopRun cond_fn (body_fn draw evalPG) fuel s) = false := by
  intro fuel
  induction fuel with
  | zero =>
    intro s hs
    have : ¬ s.i < 100 := by omega
    simp [loopRun, cond_fn, this]
  | succ m ih =>
    intro s hs
    unfold loopRun
    by_cases h : cond_fn s = true
    · rw [if_pos h]
      have hb : (body_fn draw evalPG s).i = s.i + 1 := rfl
      exact ih _ (by omega)
    · rw [if_neg h]
      exact Bool.not_eq_true _ |>.mp h

/-- C3: `find_valid_initial_params` executes its loop body at most 100 times
in total (the state counter increments once per body execution, including
the one run outside the loop when no prototype is supplied), and whenever it
reports validity, re-evaluating the potential energy and flattened gradient
at the returned parameters yields a finite energy and all-finite gradient. -/
theorem find_valid_iteration_bound_and_validity {P : Type} [Inhabited P]
    (draw : ℕ → P) (evalPG : P → FinVal × List FinVal) (key : ℕ)
    (proto : Option P) :
    (find_valid_state draw evalPG key proto).i ≤ 100
    ∧ ((find_valid draw evalPG key proto).2 = true →
        (evalPG (find_valid draw evalPG key proto).1).1.isFinite = true
        ∧ (evalPG (find_valid draw evalPG key proto).1).2.all
            FinVal.isFinite = true) := by
  cases proto with
  | some p =>
    constructor
    · have := loopRun_i_le draw evalPG 101 ⟨0, key, p, false⟩
      simpa [find_valid_state, whileLoop] using this
    · have hv : ValidImplies evalPG (find_valid_state draw evalPG key (some p)) := by
        unfold find_valid_state whileLoop
        exact loopRun_valid_implies draw evalPG 101 _ (by intro h; cases h)
      exact fun h => hv h
  | none =>
    by_cases hval :
        (body_fn draw evalPG ⟨0, key, (default : P), false⟩).valid = true
    · constructor
      · have : (find_valid_state draw evalPG key none).i =
            (body_fn draw evalPG ⟨0, key, (default : P), false⟩).i := by
          simp [find_valid_state, hval]
        rw [this]
        have hb : (body_fn draw evalPG
            (⟨0, key, (default : P), false⟩ : SearchState P)).i = 1 := rfl
        omega
      · intro h
        have heq : find_valid_state draw evalPG key none =
            body_fn draw evalPG ⟨0, key, (default : P), false⟩ := by
          simp [find_valid_state, hval]
        have := body_fn_valid_implies draw evalPG
          (⟨0, key, (default : P), false⟩ : SearchState P)
        unfold find_valid at h ⊢
        rw [heq] at h ⊢
        exact this h
    · have heq : find_valid_state draw evalPG key none =
          whileLoop draw evalPG (body_fn draw evalPG ⟨0, key, (default : P), false⟩) := by
        simp [find_valid_state, hval]
      constructor
      · rw [heq]
        have := loopRun_i_le draw evalPG 101
          (body_fn draw evalPG ⟨0, key, (default : P), false⟩)
        have hb : (body_fn draw evalPG
            (⟨0, key, (default : P), false⟩ : SearchState P)).i = 1 := rfl
        unfold whileLoop
        omega
      · intro h
        have hv : ValidImplies evalPG (find_valid_state draw evalPG key none) := by
          rw [heq]
          unfold whileLoop
          exact loopRun_valid_implies draw evalPG 101 _
            (body_fn_valid_implies draw evalPG _)
        unfold find_valid at h ⊢
        exact hv h

theorem find_valid_iteration_bound_and_validity_witness :
    (find_valid_state exDraw exEvalPG 0 none).i ≤ 100
    ∧ ((exEvalPG (find_valid exDraw exEvalPG 0 none).1).1.isFinite = true
       ∧ (exEvalPG (find_valid exDraw exEvalPG 0 none).1).2.all
           FinVal.isFinite = true) :=
  ⟨(find_valid_iteration_bound_and_validity exDraw exEvalPG 0 none).1,
   (find_valid_iteration_bound_and_validity exDraw exEvalPG 0 none).2
     (by decide)⟩

/-- C1 counterexample: with an always-finite evaluator the caller-supplied
prototype `42` is valid, yet `find_valid_initial_params` executes one loop
iteration (counter 1, not 0) and returns the freshly drawn parameters `2`
rather than the prototype. -/
theorem find_valid_prototype_short_circuit_cex :
    (exEvalPG 42).1.isFinite = true
    ∧ (exEvalPG 42).2.all FinVal.isFinite = true
    ∧ (find_valid_state exDraw exEvalPG 0 (some 42)).i = 1
    ∧ (find_valid exDraw exEvalPG 0 (some 42)).1 ≠ 42 := by
  decide

/-- C1 (amended): when a prototype parameter vector is supplied,
`find_valid_initial_params` initializes the loop state with validity `False`
and always executes at least one iteration of the retry loop, so the
returned parameters are the loop's output rather than the supplied
prototype, regardless of the prototype's validity; the immediate
short-circuit return occurs only when no prototype is supplied and the
first trial is valid under eager evaluation. -/
theorem find_valid_prototype_enters_loop {P : Type} [Inhabited P]
    (draw : ℕ → P) (evalPG : P → FinVal × List FinVal) (key : ℕ) (p : P) :
    find_valid_state draw evalPG key (some p) =
      whileLoop draw evalPG ⟨0, key, p, false⟩
    ∧ 1 ≤ (find_valid_state draw evalPG key (some p)).i
    ∧ ((body_fn draw evalPG ⟨0, key, (default : P), false⟩).valid = true →
        find_valid_state draw evalPG key none =
          body_fn draw evalPG ⟨0, key, (default : P), false⟩) := by
  refine ⟨rfl, ?_, ?_⟩
  · unfold find_valid_state whileLoop loopRun
    have hc : cond_fn (⟨0, key, p, false⟩ : SearchState P) = true := rfl
    rw [if_pos hc]
    have hb : (body_fn draw evalPG
        (⟨0, key, p, false⟩ : SearchState P)).i = 1 := rfl
    have hm := loopRun_i_mono draw evalPG 100
      (body_fn draw evalPG ⟨0, key, p, false⟩)
    exact le_trans (le_of_eq hb.symm) hm
  · intro h
    simp [find_valid_state, h]

theorem find_valid_prototype_enters_loop_witness :
    find_valid_state exDraw exEvalPG 0 (some 42) =
      whileLoop exDraw exEvalPG ⟨0, 0, 42, false⟩
    ∧ 1 ≤ (find_valid_state exDraw exEvalPG 0 (some 42)).i
    ∧ find_valid_state exDraw exEvalPG 0 none =
        body_fn exDraw exEvalPG ⟨0, 0, (default : ℚ), false⟩ :=
  ⟨(find_valid_prototype_enters_loop exDraw exEvalPG 0 42).1,
   (find_valid_prototype_enters_loop exDraw exEvalPG 0 42).2.1,
   (find_valid_prototype_enters_loop exDraw exEvalPG 0 42).2.2 (by decide)⟩

/-- C7: under eager evaluation, `initialize_model` raises the fatal
`RuntimeError` whenever some chain's validity flag from the batched
valid-initial-parameter search is false, and returns the tuple
`(init_params, potential_fn, constrain_fun)` without error when every
chain's flag is true. -/
theorem initialize_model_validity_gate {P : Type} [Inhabited P]
    (draw : ℕ → P) (evalPG : P → FinVal × List FinVal) (keys : List ℕ)
    (proto : P) (pfn : P → ℚ)
    (cfn : List (String × ℚ) → List (String × ℚ)) :
    ((∃ k ∈ keys, (find_valid draw evalPG k (some proto)).2 = false) →
      initialize_model_run draw evalPG keys proto pfn cfn =
        Except.error
          "Cannot find valid initial parameters. Please check your model again.")
    ∧ ((∀ k ∈ keys, (find_valid draw evalPG k (some proto)).2 = true) →
      initialize_model_run draw evalPG keys proto pfn cfn =
        Except.ok
          (keys.map (fun k => (find_valid draw evalPG k (some proto)).1),
           pfn, cfn)) := by
  constructor
  · rintro ⟨k, hk, hf⟩
    have hall :
        ((keys.map (fun k => find_valid draw evalPG k (some proto))).map
          Prod.snd).all id = false := by
      by_contra hb
      have hb' :
          ((keys.map (fun k => find_valid draw evalPG k (some proto))).map
            Prod.snd).all id = true := by
        cases hx :
            ((keys.map (fun k => find_valid draw evalPG k (some proto))).map
              Prod.snd).all id with
        | false => exact absurd hx hb
        | true => rfl
      have hmem : (find_valid draw evalPG k (some proto)).2 ∈
          (keys.map (fun k => find_valid draw evalPG k (some proto))).map
            Prod.snd :=
        List.mem_map_of_mem _ (List.mem_map_of_mem _ hk)
      have := List.all_eq_true.mp hb' _ hmem
      simp only [id] at this
      rw [hf] at this
      cases this
    simp only [initialize_model_run]
    rw [hall]
    simp
  · intro hv
    have hall :
        ((keys.map (fun k => find_valid draw evalPG k (some proto))).map
          Prod.snd).all id = true := by
      apply List.all_eq_true.mpr
      intro x hx
      rw [List.map_map] at hx
      obtain ⟨k, hk, hkx⟩ := List.mem_map.mp hx
      have := hv k hk
      simp only [Function.comp] at hkx
      rw [← hkx]
      simpa using this
    simp only [initialize_model_run]
    rw [hall]
    simp [List.map_map, Function.comp]

theorem initialize_model_validity_gate_witness :
    initialize_model_run exDraw exEvalPG [0] 42 (fun _ => 0) (fun l => l) =
      Except.ok
        ([0].map (fun k => (find_valid exDraw exEvalPG k (some (42 : ℚ))).1),
         (fun _ => (0 : ℚ)), (fun l => l)) :=
  (initialize_model_validity_gate exDraw exEvalPG [0] 42 (fun _ => 0)
    (fun l => l)).2 (by decide)

/-- C8: for a model whose latent sites are all directly parameterized (the
case in which `initialize_model` returns `constrain_fun =
partial(transform_fn, inv_transforms)`), applying the unconstraining inverse
(`transform_fn` with `invert=True`) and then the constrain function is the
identity on every parameter dictionary whose entries lie in their sites'
supports, given that each registered transform is a bijection onto its
support (the contract of the external `biject_to` registry). -/
theorem constrain_unconstrain_identity
    (inv_transforms : List (String × Transform)) (params : List (String × ℚ))
    (hbij : ∀ nt ∈ inv_transforms, ∀ v : ℚ, nt.2.inSupport v = true →
      nt.2.forward (nt.2.inv v) = v)
    (hsupp : ∀ kv ∈ params, ∀ t : Transform,
      lookupA inv_transforms kv.1 = some t → t.inSupport kv.2 = true) :
    transform_fn inv_transforms (transform_fn inv_transforms params true) false
      = params := by
  unfold transform_fn
  rw [List.map_map]
  induction params with
  | nil => rfl
  | cons kv rest ih =>
    rw [List.map_cons]
    have hrest : rest.map _ = rest :=
      ih (fun kv' hkv' => hsupp kv' (List.mem_cons_of_mem _ hkv'))
    rw [hrest]
    congr 1
    simp only [Function.comp]
    cases hl : lookupA inv_transforms kv.1 with
    | none => simp [hl]
    | some t =>
      simp only [hl]
      have hmem : (kv.1, t) ∈ inv_transforms := lookupA_mem hl
      have hsv : t.inSupport kv.2 = true := hsupp kv (List.mem_cons_self _ _) t hl
      have := hbij (kv.1, t) hmem kv.2 hsv
      simp only at this
      simp [this]

theorem constrain_unconstrain_identity_witness :
    transform_fn [("x", exTransform)]
      (transform_fn [("x", exTransform)] [("x", 5)] true) false = [("x", 5)] :=
  constrain_unconstrain_identity [("x", exTransform)] [("x", 5)]
    (by
      intro nt hnt v _
      have : nt = ("x", exTransform) := by simpa using hnt
      subst this
      rfl)
    (by
      intro kv hkv t ht
      have hkv' : kv = ("x", (5 : ℚ)) := by simpa using hkv
      subst hkv'
      simp only [lookupA, if_pos rfl] at ht
      injection ht with ht
      subst ht
      rfl)

end NumpyroSpec
